import Mathlib

/-!
# go-auth: the authentication filter (`auth-filter.go`)

A shallow embedding of `Filter.Filter` and a verification of its decision
logic.  The effects of one call (strategy invocations, continuation calls,
the debug log line, the error response) are recorded, in program order, in
a trace of `Event`s.
-/

set_option autoImplicit false
set_option linter.dupNamespace false

namespace auth

/-! ## Data model -/

/-- A Go `string`: an immutable sequence of bytes. -/
abbrev GoString := List UInt8

/-- The bytes of a Go string literal (Go source text is UTF-8). -/
def str (s : String) : GoString := s.toUTF8.data.toList

/-- Go `strings.HasPrefix(s, prefix)`:
`len(s) >= len(prefix) && s[0:len(prefix)] == prefix`. -/
def HasPrefix (s pre : GoString) : Bool :=
  decide (s.length ≥ pre.length) && (s.take pre.length == pre)

/-- The part of a `*restful.Request` the filter and its strategies can read:
`requestURI` is the value of `req.Request.URL.RequestURI()`, `header` stands
for whatever else a strategy inspects. -/
structure Request where
  requestURI : GoString
  header : List (GoString × GoString)

/-- The interface `Auth`: its single method `Authorize(req) bool`.  A
strategy is taken to return normally and to answer as a function of the
request; that it was called is recorded by `Event.authorize`. -/
abbrev Auth := Request → Bool

/-- The struct `Filter`.  A Go slice of strings is either `nil` (`none`) or
a (possibly empty) sequence (`some _`); the code tests `exceptions != nil`. -/
structure Filter where
  supportedAuth : List Auth
  exceptions : Option (List GoString)

/-- `NewAuthFilter` stores its two arguments unchanged. -/
def NewAuthFilter (supportedAuth : List Auth) (exceptions : Option (List GoString)) : Filter :=
  { supportedAuth := supportedAuth, exceptions := exceptions }

/-- The observable effects of `Filter.Filter`, in the order they happen. -/
inductive Event where
  /-- `supportedAuth[i].Authorize(req)` was called. -/
  | authorize (i : Nat)
  /-- `chain.ProcessFilter(req, res)` was called. -/
  | processFilter
  /-- `log.Debug(msg)` was called. -/
  | logDebug (msg : GoString)
  /-- `res.WriteErrorString(httpStatus, errorReason)` was called. -/
  | writeErrorString (httpStatus : Int) (errorReason : GoString)
  deriving DecidableEq, Repr

/-- Whether an event is a write to the response by the filter itself. -/
def Event.isWrite : Event → Bool
  | Event.writeErrorString _ _ => true
  | _ => false

/-! ## The code of `Filter.Filter` -/

/-- Lines 42-47: `for _, exception := range af.exceptions`; the result is
`true` when the body reached `chain.ProcessFilter(req, res); return`. -/
def exceptionLoop (uri : GoString) : List GoString → Bool
  | [] => false
  | exception :: rest =>
    if HasPrefix uri exception then true else exceptionLoop uri rest

/-- Lines 52-57: `for _, auth := range af.supportedAuth`, from the strategy
at index `i` on, with the current value of `success` and the trace so far.
`success || auth.Authorize(req)` calls `Authorize` only when `success` is
false; the loop breaks as soon as `success` holds. -/
def authLoop (req : Request) : List Auth → Nat → Bool → List Event → Bool × List Event
  | [], _, success, tr => (success, tr)
  | auth :: rest, i, success, tr =>
    let step : Bool × List Event :=
      if success then (true, tr) else (auth req, tr ++ [Event.authorize i])
    if step.1 then step else authLoop req rest (i + 1) step.1 step.2

/-- Lines 40-48: the block guarded by `af.exceptions != nil`; the result is
`true` when the block returned from `Filter.Filter`. -/
def exceptionBlock (exceptions : Option (List GoString)) (uri : GoString) : Bool :=
  match exceptions with
  | none => false
  | some exceptions => exceptionLoop uri exceptions

/-- The method `Filter.Filter`: the trace of one call on `req`. -/
def Filter.Filter (af : Filter) (req : Request) : List Event :=
  -- proceed if no auth is defined (no return follows)
  let t0 : List Event :=
    if af.supportedAuth.length = 0 then [Event.processFilter] else []
  -- proceed if request path is exempted
  if exceptionBlock af.exceptions req.requestURI then t0 ++ [Event.processFilter]
  else
    -- proceed if at least one auth succeeds
    let r := authLoop req af.supportedAuth 0 false t0
    if !r.1 then
      r.2 ++ [Event.logDebug (str "Unauthorized request rejected"),
              Event.writeErrorString 401 (str "401: Unauthorized")]
    else r.2 ++ [Event.processFilter]

/-! ## Concrete gates and requests used as test inputs -/

/-- A request for the given URI, without headers. -/
def requestFor (uri : String) : Request :=
  { requestURI := str uri, header := [] }

/-- A strategy that rejects every request. -/
def denyAll : Auth := fun _ => false

/-- A strategy that accepts every request. -/
def allowAll : Auth := fun _ => true

/-- No strategy, `nil` exemption list. -/
def gateEmpty : Filter := NewAuthFilter [] none

/-- No strategy, exemption `/public`. -/
def gateNoAuthPublic : Filter := NewAuthFilter [] (some [str "/public"])

/-- One always-rejecting strategy, exemption `/public`. -/
def gateDenyPublic : Filter := NewAuthFilter [denyAll] (some [str "/public"])

/-- Strategies answering false, true, false, exemption `/public`. -/
def gateFTF : Filter := NewAuthFilter [denyAll, allowAll, denyAll] (some [str "/public"])

/-- Strategies answering false, false, exemption `/public`. -/
def gateFF : Filter := NewAuthFilter [denyAll, denyAll] (some [str "/public"])

/-- Whether an event is a call of a strategy's `Authorize`. -/
def Event.isAuthorize : Event → Bool
  | Event.authorize _ => true
  | _ => false

/-- Whether an event is a log line. -/
def Event.isLog : Event → Bool
  | Event.logDebug _ => true
  | _ => false

/-! ## The call as a state transformer

The same code, statement by statement, on a state that holds the contents of
the receiver's two slices next to the effects so far.  `NewAuthFilter` stores
the slices it is given without copying them, so their backing arrays stay
reachable from outside the gate: a strategy, the continuation, a log hook or
the response writer may assign to an element (`s[i] = x`) while `Filter`
runs.  Every external call therefore comes with the element writes it makes;
the lengths of the gate's slices, and whether `exceptions` is `nil`, are
fixed by the unexported slice headers. -/

mutual
/-- A strategy object: the answer of `Authorize(req)` and the element writes
the call makes through the caller's slices. -/
inductive Strategy where
  | mk (authorize : Request → Bool) (writes : Request → List SliceWrite)
/-- An assignment to one element of a slice the gate shares with its caller:
`supportedAuth[i] = auth` or `exceptions[i] = exception`. -/
inductive SliceWrite where
  | supportedAuth (i : Nat) (auth : Strategy)
  | exceptions (i : Nat) (exception : GoString)
end

/-- The answer of `Authorize(req)`. -/
def Strategy.authorize : Strategy → Request → Bool
  | Strategy.mk authorize _ => authorize

/-- The element writes of one `Authorize(req)` call. -/
def Strategy.writes : Strategy → Request → List SliceWrite
  | Strategy.mk _ writes => writes

/-- A strategy that only answers. -/
def Strategy.ofAuth (auth : Auth) : Strategy :=
  Strategy.mk auth (fun _ => [])

/-- The contents of the receiver `*af` during a call: the elements of its two
slices. -/
structure Receiver where
  supportedAuth : List Strategy
  exceptions : Option (List GoString)

/-- The receiver of a gate whose strategies only answer. -/
def Receiver.ofFilter (af : Filter) : Receiver :=
  { supportedAuth := af.supportedAuth.map Strategy.ofAuth, exceptions := af.exceptions }

/-- The other calls `Filter` makes, with the element writes each makes:
`chain.ProcessFilter(req, res)`, `log.Debug(..)`, `res.WriteErrorString(..)`. -/
structure Collaborators where
  processFilter : Request → List SliceWrite
  logDebug : List SliceWrite
  writeErrorString : List SliceWrite

/-- Collaborators that never write to the gate's slices. -/
def Collaborators.quiet : Collaborators :=
  { processFilter := fun _ => [], logDebug := [], writeErrorString := [] }

/-- One element write on the receiver.  An index at or beyond the gate's
length is not seen by the gate; a `nil` slice has no element. -/
def SliceWrite.apply : SliceWrite → Receiver → Receiver
  | SliceWrite.supportedAuth i auth, g =>
    { supportedAuth := g.supportedAuth.set i auth, exceptions := g.exceptions }
  | SliceWrite.exceptions i exception, g =>
    { supportedAuth := g.supportedAuth,
      exceptions := g.exceptions.map (fun es => es.set i exception) }

/-- The state of one call: the receiver's contents and the effects so far. -/
structure CallState where
  gate : Receiver
  trace : List Event

/-- An external call: it is appended to the effects, and its element writes
are made, in order, before it returns. -/
def CallState.call (ev : Event) (writes : List SliceWrite) (st : CallState) : CallState :=
  { gate := writes.foldl (fun g w => w.apply g) st.gate, trace := st.trace ++ [ev] }

/-- Lines 52-57 on the state: `n` iterations are left, the next one is for
index `i`.  The number of iterations is fixed when the `range` clause is
evaluated; the element is read when its iteration starts. -/
def authLoopS (req : Request) : Nat → Nat → Bool → CallState → Bool × CallState
  | 0, _, success, st => (success, st)
  | n + 1, i, success, st =>
    match st.gate.supportedAuth[i]? with
    | none => (success, st)
    | some auth =>
      let step : Bool × CallState :=
        if success then (true, st)
        else (auth.authorize req, st.call (Event.authorize i) (auth.writes req))
      if step.1 then step else authLoopS req n (i + 1) step.1 step.2

/-- The method `Filter.Filter` on the state: the state when the call returns.
The exemption loop makes no call before its `return`, so it runs on the
elements as they are when it starts. -/
def FilterExec (env : Collaborators) (af : Receiver) (req : Request) : CallState :=
  let st0 : CallState := { gate := af, trace := [] }
  let st1 : CallState :=
    if st0.gate.supportedAuth.length = 0 then
      st0.call Event.processFilter (env.processFilter req)
    else st0
  if exceptionBlock st1.gate.exceptions req.requestURI then
    st1.call Event.processFilter (env.processFilter req)
  else
    let a := authLoopS req st1.gate.supportedAuth.length 0 false st1
    if !a.1 then
      (a.2.call (Event.logDebug (str "Unauthorized request rejected")) env.logDebug).call
        (Event.writeErrorString 401 (str "401: Unauthorized")) env.writeErrorString
    else a.2.call Event.processFilter (env.processFilter req)

/-- The call of `Filter` on a gate whose strategies only answer, with
collaborators that never write to the gate's slices. -/
def FilterRun (af : Filter) (req : Request) : CallState :=
  FilterExec Collaborators.quiet (Receiver.ofFilter af) req

/-- A strategy that rejects every request and, when called, overwrites the
first exemption through the caller's slice. -/
def rewritingDeny : Strategy :=
  Strategy.mk (fun _ => false) (fun _ => [SliceWrite.exceptions 0 (str "/mutated")])

/-- The strategy `rewritingDeny`, then an accepting strategy; exemption
`/public`. -/
def gateRewriting : Receiver :=
  { supportedAuth := [rewritingDeny, Strategy.ofAuth allowAll],
    exceptions := some [str "/public"] }

/-! ## The early-return variant of the specification -/

/-- The variant of `Filter.Filter` the specification describes: it returns
immediately after invoking the continuation when no strategy is configured,
and is the code as written otherwise. -/
def FilterEarlyReturn (af : Filter) (req : Request) : List Event :=
  if af.supportedAuth.length = 0 then [Event.processFilter]
  else af.Filter req

/-! ## More test inputs -/

/-- One always-rejecting strategy, exemptions `/public` and the empty string. -/
def gateDenyBlank : Filter := NewAuthFilter [denyAll] (some [str "/public", str ""])

/-- The gate `gateDenyPublic` with a second, accepting strategy appended and
the exemption `/static` added. -/
def gateDenyAllowStatic : Filter :=
  NewAuthFilter [denyAll, allowAll] (some [str "/static", str "/public"])

/-- Strategies answering false, true; exemptions `/a`, `/b`. -/
def gateFT : Filter := NewAuthFilter [denyAll, allowAll] (some [str "/a", str "/b"])

/-- The gate `gateFT` with both lists in the opposite order. -/
def gateTF : Filter := NewAuthFilter [allowAll, denyAll] (some [str "/b", str "/a"])

/-! ## Lemmas about the loops -/

theorem HasPrefix_iff (s pre : GoString) : HasPrefix s pre = true ↔ pre <+: s := by
  unfold HasPrefix
  rw [List.prefix_iff_eq_take]
  constructor
  · intro h
    simp only [Bool.and_eq_true, decide_eq_true_eq, beq_iff_eq] at h
    exact h.2.symm
  · intro h
    have hlen : pre.length ≤ s.length := by
      have := congrArg List.length h
      rw [List.length_take] at this
      omega
    simp only [Bool.and_eq_true, decide_eq_true_eq, beq_iff_eq]
    exact ⟨hlen, h.symm⟩

theorem exceptionLoop_iff (uri : GoString) (es : List GoString) :
    exceptionLoop uri es = true ↔ ∃ e ∈ es, e <+: uri := by
  induction es with
  | nil => simp [exceptionLoop]
  | cons e rest ih =>
    unfold exceptionLoop
    by_cases h : HasPrefix uri e = true
    · simp only [h, if_true, true_iff]
      exact ⟨e, List.mem_cons_self _ _, (HasPrefix_iff _ _).1 h⟩
    · have hn : ¬ e <+: uri := fun hp => h ((HasPrefix_iff _ _).2 hp)
      have hb : HasPrefix uri e = false := by simpa using h
      simp only [hb, Bool.false_eq_true, if_false, ih, List.mem_cons]
      constructor
      · rintro ⟨x, hx, hp⟩
        exact ⟨x, Or.inr hx, hp⟩
      · rintro ⟨x, hx | hx, hp⟩
        · exact absurd (hx ▸ hp) hn
        · exact ⟨x, hx, hp⟩

theorem exceptionBlock_iff (exceptions : Option (List GoString)) (uri : GoString) :
    exceptionBlock exceptions uri = true ↔
      ∃ es, exceptions = some es ∧ ∃ e ∈ es, e <+: uri := by
  cases exceptions with
  | none => simp [exceptionBlock]
  | some es => simp [exceptionBlock, exceptionLoop_iff]

/-- The strategy loop, entered with `success = false`, calls the strategies
at offsets `0 .. min (k + 1) n - 1`, where `k` is the offset of the first
strategy that returns true (`n` when there is none), and ends with
`success` true exactly when some strategy returns true. -/
theorem authLoop_eq (req : Request) (auths : List Auth) (i : Nat) (tr : List Event) :
    authLoop req auths i false tr =
      (auths.any (fun a => a req),
       tr ++ (List.range (min (auths.findIdx (fun a => a req) + 1) auths.length)).map
          (fun j => Event.authorize (i + j))) := by
  induction auths generalizing i tr with
  | nil => simp [authLoop]
  | cons a rest ih =>
    unfold authLoop
    by_cases h : a req = true
    · simp [h, List.findIdx_cons, List.range_succ]
    · have hf : a req = false := by simpa using h
      simp only [hf, Bool.false_eq_true, if_false, ih, List.any_cons, Bool.false_or,
        List.findIdx_cons, cond_false, List.length_cons, Nat.add_min_add_right,
        List.append_assoc, List.singleton_append]
      congr 2
      rw [List.range_succ_eq_map, List.map_cons, List.map_map]
      congr 1
      apply List.map_congr_left
      intro j _
      simp only [Function.comp, Nat.add_zero]
      congr 1
      omega

/-! ## The three paths through `Filter.Filter` -/

/-- The path through the exemption block's `return`. -/
theorem Filter_exempt_eq (af : Filter) (req : Request)
    (h : exceptionBlock af.exceptions req.requestURI = true) :
    af.Filter req =
      (if af.supportedAuth.length = 0 then [Event.processFilter] else []) ++
        [Event.processFilter] := by
  unfold Filter.Filter
  simp only [h, if_true]

/-- The path on which the strategy loop breaks with `success = true`. -/
theorem Filter_success_eq (af : Filter) (req : Request)
    (h : exceptionBlock af.exceptions req.requestURI = false)
    (hs : ∃ a ∈ af.supportedAuth, a req = true) :
    af.Filter req =
      (List.range (af.supportedAuth.findIdx (fun a => a req) + 1)).map Event.authorize ++
        [Event.processFilter] := by
  have hany : af.supportedAuth.any (fun a => a req) = true := by
    simpa [List.any_eq_true] using hs
  have hlt : af.supportedAuth.findIdx (fun a => a req) < af.supportedAuth.length :=
    List.findIdx_lt_length_of_exists hs
  have hlen : ¬ af.supportedAuth.length = 0 := Nat.not_eq_zero_of_lt hlt
  have hmin : min (af.supportedAuth.findIdx (fun a => a req) + 1) af.supportedAuth.length =
      af.supportedAuth.findIdx (fun a => a req) + 1 := Nat.min_eq_left hlt
  unfold Filter.Filter
  simp only [h, Bool.false_eq_true, if_false, hlen, authLoop_eq, hany, hmin, Bool.not_true,
    List.nil_append, Nat.zero_add]

/-- The path on which the strategy loop runs to its end with `success = false`. -/
theorem Filter_failure_eq (af : Filter) (req : Request)
    (h : exceptionBlock af.exceptions req.requestURI = false)
    (hs : ∀ a ∈ af.supportedAuth, a req = false) :
    af.Filter req =
      (if af.supportedAuth.length = 0 then [Event.processFilter] else []) ++
        (List.range af.supportedAuth.length).map Event.authorize ++
        [Event.logDebug (str "Unauthorized request rejected"),
         Event.writeErrorString 401 (str "401: Unauthorized")] := by
  have hany : af.supportedAuth.any (fun a => a req) = false := by
    simpa [List.any_eq_false] using hs
  have hidx : af.supportedAuth.findIdx (fun a => a req) = af.supportedAuth.length :=
    List.findIdx_eq_length_of_false hs
  have hmin : min (af.supportedAuth.length + 1) af.supportedAuth.length =
      af.supportedAuth.length := Nat.min_eq_right (Nat.le_succ _)
  unfold Filter.Filter
  simp only [h, Bool.false_eq_true, if_false, authLoop_eq, hany, hidx, hmin, Bool.not_false,
    if_true, Nat.zero_add]

/-- Either some strategy returns true on the request or all return false. -/
theorem auth_cases (auths : List Auth) (req : Request) :
    (∃ a ∈ auths, a req = true) ∨ (∀ a ∈ auths, a req = false) := by
  by_cases h : ∃ a ∈ auths, a req = true
  · exact Or.inl h
  · refine Or.inr fun a ha => ?_
    cases hv : a req with
    | false => rfl
    | true => exact absurd ⟨a, ha, hv⟩ h

/-- The exemption block did not return exactly when no configured exemption
is a prefix of the request URI. -/
theorem exceptionBlock_eq_false_iff (exceptions : Option (List GoString)) (uri : GoString) :
    exceptionBlock exceptions uri = false ↔
      ¬ ∃ es, exceptions = some es ∧ ∃ e ∈ es, e <+: uri := by
  rw [← exceptionBlock_iff]
  simp

/-! ## Decision logic -/

/-- C1: `Filter` invokes the continuation at least once if and only if the
strategy list is empty, or some configured exemption is a prefix of the
request URI, or some configured strategy returns true for the request. -/
theorem Filter_continuation_iff (af : Filter) (req : Request) :
    1 ≤ (af.Filter req).count Event.processFilter ↔
      (af.supportedAuth = [] ∨
        (∃ es, af.exceptions = some es ∧ ∃ e ∈ es, e <+: req.requestURI) ∨
        ∃ a ∈ af.supportedAuth, a req = true) := by
  rw [List.one_le_count_iff]
  cases hx : exceptionBlock af.exceptions req.requestURI with
  | true =>
    rw [Filter_exempt_eq af req hx]
    have hex := (exceptionBlock_iff _ _).1 hx
    simp only [List.mem_append, List.mem_singleton, or_true, true_iff]
    exact Or.inr (Or.inl hex)
  | false =>
    have hex := (exceptionBlock_eq_false_iff _ _).1 hx
    rcases auth_cases af.supportedAuth req with hs | hs
    · rw [Filter_success_eq af req hx hs]
      simp only [List.mem_append, List.mem_singleton, or_true, true_iff]
      exact Or.inr (Or.inr hs)
    · rw [Filter_failure_eq af req hx hs]
      have hno : ¬ ∃ a ∈ af.supportedAuth, a req = true := by
        rintro ⟨a, ha, hv⟩
        rw [hs a ha] at hv
        exact Bool.false_ne_true hv
      by_cases hl : af.supportedAuth = []
      · simp [hl]
      · have hlen : ¬ af.supportedAuth.length = 0 := fun h => hl (List.length_eq_zero.1 h)
        simp [hl, hlen, hex, hno]

/-- C2 (the code departs from it): with no strategy configured, a `nil`
exemption list and request URI `/`, `Filter` invokes the continuation and
then still logs and writes the 401 rejection. -/
theorem Filter_gateEmpty_trace :
    gateEmpty.Filter (requestFor "/") =
      [Event.processFilter,
       Event.logDebug (str "Unauthorized request rejected"),
       Event.writeErrorString 401 (str "401: Unauthorized")] := by
  decide

/-- C3: when the request URI starts with a configured exemption, `Filter`
calls no strategy, writes no rejection, and invokes the continuation. -/
theorem Filter_exempt (af : Filter) (req : Request)
    (h : ∃ es, af.exceptions = some es ∧ ∃ e ∈ es, e <+: req.requestURI) :
    (∀ i, Event.authorize i ∉ af.Filter req) ∧
      (∀ status body, Event.writeErrorString status body ∉ af.Filter req) ∧
      Event.processFilter ∈ af.Filter req := by
  rw [Filter_exempt_eq af req ((exceptionBlock_iff _ _).2 h)]
  refine ⟨fun i => ?_, fun status body => ?_, ?_⟩
  · by_cases hl : af.supportedAuth.length = 0 <;> simp [hl]
  · by_cases hl : af.supportedAuth.length = 0 <;> simp [hl]
  · simp

/-- Witness for C3: exemption `/public`, request `/publicly-available`. -/
theorem Filter_exempt_witness :
    (∃ es, gateDenyPublic.exceptions = some es ∧
        ∃ e ∈ es, e <+: (requestFor "/publicly-available").requestURI) ∧
      ((∀ i, Event.authorize i ∉ gateDenyPublic.Filter (requestFor "/publicly-available")) ∧
        (∀ status body, Event.writeErrorString status body ∉
          gateDenyPublic.Filter (requestFor "/publicly-available")) ∧
        Event.processFilter ∈ gateDenyPublic.Filter (requestFor "/publicly-available")) :=
  have h : ∃ es, gateDenyPublic.exceptions = some es ∧
      ∃ e ∈ es, e <+: (requestFor "/publicly-available").requestURI :=
    (exceptionBlock_iff _ _).1 (by decide)
  ⟨h, Filter_exempt gateDenyPublic (requestFor "/publicly-available") h⟩

/-- C4: with a non-empty strategy list and no matching exemption, if some
strategy returns true then, for `k` the position of the first strategy that
returns true, the call consists of `Authorize` on the strategies at
positions `0, ..., k`, once each and in this order, followed by one call of
the continuation: nothing is written and no later strategy is called. -/
theorem Filter_first_success (af : Filter) (req : Request)
    (hne : af.supportedAuth ≠ [])
    (hex : ¬ ∃ es, af.exceptions = some es ∧ ∃ e ∈ es, e <+: req.requestURI)
    (hs : ∃ a ∈ af.supportedAuth, a req = true) :
    ∃ k : Nat, (∃ a : Auth, af.supportedAuth[k]? = some a ∧ a req = true) ∧
      (∀ (j : Nat) (a : Auth), j < k → af.supportedAuth[j]? = some a → a req = false) ∧
      af.Filter req = (List.range (k + 1)).map Event.authorize ++ [Event.processFilter] := by
  have _ := hne
  have hx := (exceptionBlock_eq_false_iff _ _).2 hex
  have hlt : af.supportedAuth.findIdx (fun a => a req) < af.supportedAuth.length :=
    List.findIdx_lt_length_of_exists hs
  refine ⟨af.supportedAuth.findIdx (fun a => a req), ?_, ?_, Filter_success_eq af req hx hs⟩
  · refine ⟨af.supportedAuth[af.supportedAuth.findIdx (fun a => a req)],
      List.getElem?_eq_getElem hlt, ?_⟩
    exact List.findIdx_getElem (w := hlt)
  · intro j a hj hja
    have hjl : j < af.supportedAuth.length := Nat.lt_trans hj hlt
    have hnot := List.not_of_lt_findIdx hj
    rw [List.getElem?_eq_getElem hjl] at hja
    cases hja
    exact hnot

/-- Witness for C4: strategies answering false, true, false; the third is
never called. -/
theorem Filter_first_success_witness :
    (gateFTF.supportedAuth ≠ [] ∧
      (¬ ∃ es, gateFTF.exceptions = some es ∧ ∃ e ∈ es, e <+: (requestFor "/api").requestURI) ∧
      ∃ a ∈ gateFTF.supportedAuth, a (requestFor "/api") = true) ∧
    (∃ k : Nat, (∃ a : Auth, gateFTF.supportedAuth[k]? = some a ∧ a (requestFor "/api") = true) ∧
      (∀ (j : Nat) (a : Auth), j < k → gateFTF.supportedAuth[j]? = some a → a (requestFor "/api") = false) ∧
      gateFTF.Filter (requestFor "/api") =
        (List.range (k + 1)).map Event.authorize ++ [Event.processFilter]) ∧
    gateFTF.Filter (requestFor "/api") =
      [Event.authorize 0, Event.authorize 1, Event.processFilter] :=
  have hne : gateFTF.supportedAuth ≠ [] := fun h => List.noConfusion h
  have hex : ¬ ∃ es, gateFTF.exceptions = some es ∧
      ∃ e ∈ es, e <+: (requestFor "/api").requestURI :=
    (exceptionBlock_eq_false_iff _ _).1 (by decide)
  have hs : ∃ a ∈ gateFTF.supportedAuth, a (requestFor "/api") = true :=
    ⟨allowAll, List.mem_cons_of_mem _ (List.mem_cons_self _ _), rfl⟩
  ⟨⟨hne, hex, hs⟩, Filter_first_success gateFTF (requestFor "/api") hne hex hs, by decide⟩

/-- C5: with a non-empty strategy list and no matching exemption, if every
strategy returns false then the call consists of `Authorize` on every
configured strategy, once each and in configured order, followed by the
debug log line and the 401 rejection; the continuation is not invoked. -/
theorem Filter_all_fail (af : Filter) (req : Request)
    (hne : af.supportedAuth ≠ [])
    (hex : ¬ ∃ es, af.exceptions = some es ∧ ∃ e ∈ es, e <+: req.requestURI)
    (hs : ∀ a ∈ af.supportedAuth, a req = false) :
    af.Filter req =
        (List.range af.supportedAuth.length).map Event.authorize ++
          [Event.logDebug (str "Unauthorized request rejected"),
           Event.writeErrorString 401 (str "401: Unauthorized")] ∧
      Event.writeErrorString 401 (str "401: Unauthorized") ∈ af.Filter req ∧
      Event.processFilter ∉ af.Filter req := by
  have hx := (exceptionBlock_eq_false_iff _ _).2 hex
  have hlen : ¬ af.supportedAuth.length = 0 := fun h => hne (List.length_eq_zero.1 h)
  have heq := Filter_failure_eq af req hx hs
  simp only [hlen, if_false, List.nil_append] at heq
  rw [heq]
  refine ⟨rfl, ?_, ?_⟩
  · simp
  · simp

/-- Witness for C5: strategies answering false, false; both are called once. -/
theorem Filter_all_fail_witness :
    (gateFF.supportedAuth ≠ [] ∧
      (¬ ∃ es, gateFF.exceptions = some es ∧ ∃ e ∈ es, e <+: (requestFor "/api").requestURI) ∧
      ∀ a ∈ gateFF.supportedAuth, a (requestFor "/api") = false) ∧
    (gateFF.Filter (requestFor "/api") =
        (List.range gateFF.supportedAuth.length).map Event.authorize ++
          [Event.logDebug (str "Unauthorized request rejected"),
           Event.writeErrorString 401 (str "401: Unauthorized")] ∧
      Event.writeErrorString 401 (str "401: Unauthorized") ∈ gateFF.Filter (requestFor "/api") ∧
      Event.processFilter ∉ gateFF.Filter (requestFor "/api")) ∧
    gateFF.Filter (requestFor "/api") =
      [Event.authorize 0, Event.authorize 1,
       Event.logDebug (str "Unauthorized request rejected"),
       Event.writeErrorString 401 (str "401: Unauthorized")] :=
  have hne : gateFF.supportedAuth ≠ [] := fun h => List.noConfusion h
  have hex : ¬ ∃ es, gateFF.exceptions = some es ∧
      ∃ e ∈ es, e <+: (requestFor "/api").requestURI :=
    (exceptionBlock_eq_false_iff _ _).1 (by decide)
  have hs : ∀ a ∈ gateFF.supportedAuth, a (requestFor "/api") = false := by
    intro a ha
    simp only [gateFF, NewAuthFilter, List.mem_cons, List.mem_singleton, List.not_mem_nil,
      or_false, or_self] at ha
    rw [ha]
    rfl
  ⟨⟨hne, hex, hs⟩, Filter_all_fail gateFF (requestFor "/api") hne hex hs, by decide⟩

/-- C6: exemption matching is a plain byte-prefix test: the exemption block
returns, and the call then consists of continuation calls only, exactly when
the request URI is `e ++ s` for a configured exemption `e` and some (possibly
empty) `s`; a gate with exemption `/public` and an always-false strategy lets
`/publicly-available` through. -/
theorem Filter_exemption_plain_prefix :
    (∀ (af : Filter) (req : Request),
      exceptionBlock af.exceptions req.requestURI = true ↔
        ∃ es, af.exceptions = some es ∧ ∃ e ∈ es, ∃ s, req.requestURI = e ++ s) ∧
    (∀ (af : Filter) (req : Request),
      (∀ ev ∈ af.Filter req, ev = Event.processFilter) ↔
        ∃ es, af.exceptions = some es ∧ ∃ e ∈ es, ∃ s, req.requestURI = e ++ s) ∧
    gateDenyPublic.Filter (requestFor "/publicly-available") = [Event.processFilter] := by
  have hpre : ∀ (af : Filter) (req : Request),
      (∃ es, af.exceptions = some es ∧ ∃ e ∈ es, ∃ s, req.requestURI = e ++ s) ↔
        ∃ es, af.exceptions = some es ∧ ∃ e ∈ es, e <+: req.requestURI := by
    intro af req
    constructor
    · rintro ⟨es, hes, e, he, s, hs⟩
      exact ⟨es, hes, e, he, s, hs.symm⟩
    · rintro ⟨es, hes, e, he, s, hs⟩
      exact ⟨es, hes, e, he, s, hs.symm⟩
  refine ⟨fun af req => ?_, fun af req => ?_, by decide⟩
  · rw [hpre, exceptionBlock_iff]
  · rw [hpre, ← exceptionBlock_iff]
    cases hx : exceptionBlock af.exceptions req.requestURI with
    | true =>
      rw [Filter_exempt_eq af req hx]
      by_cases hl : af.supportedAuth.length = 0 <;> simp [hl]
    | false =>
      simp only [Bool.false_eq_true, iff_false]
      intro hall
      rcases auth_cases af.supportedAuth req with hs | hs
      · rw [Filter_success_eq af req hx hs] at hall
        have := hall (Event.authorize 0) (by simp [List.range_succ_eq_map])
        exact Event.noConfusion this
      · rw [Filter_failure_eq af req hx hs] at hall
        have := hall (Event.writeErrorString 401 (str "401: Unauthorized")) (by simp)
        exact Event.noConfusion this

/-- C7: `Filter` writes the 401 rejection if and only if no configured
exemption is a prefix of the request URI and no configured strategy returns
true for the request. -/
theorem Filter_rejection_iff (af : Filter) (req : Request) :
    Event.writeErrorString 401 (str "401: Unauthorized") ∈ af.Filter req ↔
      (¬ ∃ es, af.exceptions = some es ∧ ∃ e ∈ es, e <+: req.requestURI) ∧
        ¬ ∃ a ∈ af.supportedAuth, a req = true := by
  cases hx : exceptionBlock af.exceptions req.requestURI with
  | true =>
    rw [Filter_exempt_eq af req hx]
    have hex := (exceptionBlock_iff _ _).1 hx
    by_cases hl : af.supportedAuth.length = 0 <;> simp [hl, hex]
  | false =>
    have hex := (exceptionBlock_eq_false_iff _ _).1 hx
    rcases auth_cases af.supportedAuth req with hs | hs
    · rw [Filter_success_eq af req hx hs]
      simp [hs]
    · rw [Filter_failure_eq af req hx hs]
      have hno : ¬ ∃ a ∈ af.supportedAuth, a req = true := by
        rintro ⟨a, ha, hv⟩
        rw [hs a ha] at hv
        exact Bool.false_ne_true hv
      refine ⟨fun _ => ⟨hex, hno⟩, fun _ => ?_⟩
      simp

/-- C8 (the code departs from it): with no strategy configured, exemption
`/public` and request URI `/private`, one call of `Filter` both invokes the
continuation and writes the 401 rejection. -/
theorem Filter_gateNoAuthPublic_both :
    Event.processFilter ∈ gateNoAuthPublic.Filter (requestFor "/private") ∧
      Event.writeErrorString 401 (str "401: Unauthorized") ∈
        gateNoAuthPublic.Filter (requestFor "/private") := by
  decide

/-- C9 (the code departs from it): with no strategy configured, exemption
`/public` and request URI `/public/index.html`, one call of `Filter` invokes
the continuation twice. -/
theorem Filter_gateNoAuthPublic_twice :
    (gateNoAuthPublic.Filter (requestFor "/public/index.html")).count Event.processFilter = 2 ∧
      gateNoAuthPublic.Filter (requestFor "/public/index.html") =
        [Event.processFilter, Event.processFilter] := by
  decide

/-- C10: whenever `Filter` writes to the response, the writes of that call
are exactly one `WriteErrorString`, with status 401 and body
`401: Unauthorized`, whatever the gate and the request. -/
theorem Filter_write_shape (af : Filter) (req : Request) (status : Int) (body : GoString)
    (h : Event.writeErrorString status body ∈ af.Filter req) :
    status = 401 ∧ body = str "401: Unauthorized" ∧
      (af.Filter req).filter Event.isWrite =
        [Event.writeErrorString 401 (str "401: Unauthorized")] := by
  have hmap : ∀ n : Nat, ((List.range n).map Event.authorize).filter Event.isWrite = [] := by
    intro n
    simp [List.filter_eq_nil_iff, Event.isWrite]
  cases hx : exceptionBlock af.exceptions req.requestURI with
  | true =>
    rw [Filter_exempt_eq af req hx] at h
    by_cases hl : af.supportedAuth.length = 0 <;> simp [hl] at h
  | false =>
    rcases auth_cases af.supportedAuth req with hs | hs
    · rw [Filter_success_eq af req hx hs] at h
      simp at h
    · rw [Filter_failure_eq af req hx hs] at h ⊢
      have hw : status = 401 ∧ body = str "401: Unauthorized" := by
        by_cases hl : af.supportedAuth.length = 0 <;> simpa [hl] using h
      refine ⟨hw.1, hw.2, ?_⟩
      by_cases hl : af.supportedAuth.length = 0 <;>
        simp [hl, List.filter_append, hmap, List.filter_cons, Event.isWrite]

/-- Witness for C10: a gate whose two strategies both answer false. -/
theorem Filter_write_shape_witness :
    Event.writeErrorString 401 (str "401: Unauthorized") ∈ gateFF.Filter (requestFor "/api") ∧
      ((401 : Int) = 401 ∧ str "401: Unauthorized" = str "401: Unauthorized" ∧
        (gateFF.Filter (requestFor "/api")).filter Event.isWrite =
          [Event.writeErrorString 401 (str "401: Unauthorized")]) :=
  have h : Event.writeErrorString 401 (str "401: Unauthorized") ∈
      gateFF.Filter (requestFor "/api") := by decide
  ⟨h, Filter_write_shape gateFF (requestFor "/api") 401 (str "401: Unauthorized") h⟩

/-! ## The trace in one formula, and its two projections -/

/-- The number of strategies the strategy loop calls. -/
theorem authLoop_calls_le (req : Request) (auths : List Auth) :
    min (auths.findIdx (fun a => a req) + 1) auths.length ≤ auths.length :=
  Nat.min_le_right _ _

/-- The trace of a call: the continuation call of the no-strategies branch,
then either the continuation call of the exemption block, or the strategy
calls followed by the outcome of the strategy loop. -/
theorem Filter_trace_eq (af : Filter) (req : Request) :
    af.Filter req =
      (if af.supportedAuth.length = 0 then [Event.processFilter] else []) ++
        (if exceptionBlock af.exceptions req.requestURI = true then [Event.processFilter]
         else
          (List.range (min (af.supportedAuth.findIdx (fun a => a req) + 1)
              af.supportedAuth.length)).map Event.authorize ++
            (if af.supportedAuth.any (fun a => a req) = true then [Event.processFilter]
             else [Event.logDebug (str "Unauthorized request rejected"),
                   Event.writeErrorString 401 (str "401: Unauthorized")])) := by
  unfold Filter.Filter
  simp only [authLoop_eq, Nat.zero_add]
  cases hx : exceptionBlock af.exceptions req.requestURI with
  | true => simp
  | false =>
    cases hany : af.supportedAuth.any (fun a => a req) with
    | true => simp
    | false => simp

/-- No strategy call is a log line, a write or a continuation call. -/
theorem filter_authorize_calls (n : Nat) (p : Event → Bool)
    (hp : ∀ i, p (Event.authorize i) = false) :
    ((List.range n).map Event.authorize).filter p = [] := by
  rw [List.filter_eq_nil_iff]
  intro ev hev
  rcases List.mem_map.1 hev with ⟨i, _, rfl⟩
  simp [hp i]

/-- The strategy calls of a trace: none when the exemption block returned,
otherwise those of the strategy loop, in order. -/
theorem Filter_authorize_eq (af : Filter) (req : Request) :
    (af.Filter req).filter Event.isAuthorize =
      (List.range (if exceptionBlock af.exceptions req.requestURI = true then 0
          else min (af.supportedAuth.findIdx (fun a => a req) + 1)
            af.supportedAuth.length)).map Event.authorize := by
  have hall : ∀ n : Nat, ((List.range n).map Event.authorize).filter Event.isAuthorize =
      (List.range n).map Event.authorize := by
    intro n
    rw [List.filter_eq_self]
    intro ev hev
    rcases List.mem_map.1 hev with ⟨i, _, rfl⟩
    rfl
  rw [Filter_trace_eq]
  by_cases hl : af.supportedAuth.length = 0 <;>
    cases hx : exceptionBlock af.exceptions req.requestURI <;>
    cases hany : af.supportedAuth.any (fun a => a req) <;>
    simp [hl, List.filter_append, hall, List.filter_cons, Event.isAuthorize]

/-- The other events of a trace, in order. -/
theorem Filter_effects_eq (af : Filter) (req : Request) :
    (af.Filter req).filter (fun ev => !ev.isAuthorize) =
      (if af.supportedAuth.length = 0 then [Event.processFilter] else []) ++
        (if exceptionBlock af.exceptions req.requestURI = true then [Event.processFilter]
         else if af.supportedAuth.any (fun a => a req) = true then [Event.processFilter]
         else [Event.logDebug (str "Unauthorized request rejected"),
               Event.writeErrorString 401 (str "401: Unauthorized")]) := by
  have hnone : ∀ n : Nat,
      ((List.range n).map Event.authorize).filter (fun ev => !ev.isAuthorize) = [] :=
    fun n => filter_authorize_calls n _ (fun _ => rfl)
  rw [Filter_trace_eq]
  by_cases hl : af.supportedAuth.length = 0 <;>
    cases hx : exceptionBlock af.exceptions req.requestURI <;>
    cases hany : af.supportedAuth.any (fun a => a req) <;>
    simp only [hl, if_true, if_false, Bool.false_eq_true, List.filter_append, hnone,
      List.nil_append, List.append_nil] <;>
    rfl

/-! ## Strategy calls, logging, frame -/

/-- C11: in every call the strategies called are those at positions
`0, ..., m - 1` for some `m` not above the number of configured strategies, in
this order, and no strategy is called more than once: the calls are a prefix
of the configured list, without retry, reordering or skipping. -/
theorem Filter_invocations_prefix (af : Filter) (req : Request) :
    ∃ m : Nat, m ≤ af.supportedAuth.length ∧
      (af.Filter req).filter Event.isAuthorize = (List.range m).map Event.authorize ∧
      ∀ i : Nat, (af.Filter req).count (Event.authorize i) ≤ 1 := by
  have hinj : Function.Injective Event.authorize := fun i j h => by
    cases h
    rfl
  refine ⟨if exceptionBlock af.exceptions req.requestURI = true then 0
      else min (af.supportedAuth.findIdx (fun a => a req) + 1) af.supportedAuth.length,
    ?_, Filter_authorize_eq af req, fun i => ?_⟩
  · by_cases hx : exceptionBlock af.exceptions req.requestURI = true
    · simp [hx]
    · simp only [hx, if_false]
      exact authLoop_calls_le req af.supportedAuth
  · have hc : (af.Filter req).count (Event.authorize i) =
        ((af.Filter req).filter Event.isAuthorize).count (Event.authorize i) :=
      (List.count_filter (by rfl)).symm
    rw [hc, Filter_authorize_eq]
    exact List.nodup_iff_count_le_one.1 ((List.nodup_range _).map hinj) _

/-- C12: the log lines of a call are the single debug line
`Unauthorized request rejected` when the call writes the 401 rejection, and
none when it does not. -/
theorem Filter_log_iff_rejection (af : Filter) (req : Request) :
    (af.Filter req).filter Event.isLog =
      if Event.writeErrorString 401 (str "401: Unauthorized") ∈ af.Filter req
      then [Event.logDebug (str "Unauthorized request rejected")] else [] := by
  have hnone : ∀ n : Nat, ((List.range n).map Event.authorize).filter Event.isLog = [] :=
    fun n => filter_authorize_calls n _ (fun _ => rfl)
  have hmem : ∀ n : Nat, Event.writeErrorString 401 (str "401: Unauthorized") ∉
      (List.range n).map Event.authorize := by
    intro n hin
    rcases List.mem_map.1 hin with ⟨i, _, hi⟩
    exact Event.noConfusion hi
  have hpf : Event.writeErrorString 401 (str "401: Unauthorized") ≠ Event.processFilter :=
    fun h => Event.noConfusion h
  have hlog : Event.writeErrorString 401 (str "401: Unauthorized") ≠
      Event.logDebug (str "Unauthorized request rejected") := fun h => Event.noConfusion h
  rw [Filter_trace_eq]
  by_cases hl : af.supportedAuth.length = 0 <;>
    cases hx : exceptionBlock af.exceptions req.requestURI <;>
    cases hany : af.supportedAuth.any (fun a => a req) <;>
    simp only [hl, if_true, if_false, Bool.false_eq_true, List.filter_append, hnone,
      List.nil_append, List.append_nil, List.mem_append, List.mem_cons, List.mem_singleton,
      List.not_mem_nil, hmem, hpf, hlog, or_false, false_or, or_true, or_self] <;>
    rfl

/-! ## The receiver during a call -/

/-- An external call that writes nothing leaves the receiver as it is. -/
theorem call_nil (ev : Event) (st : CallState) :
    st.call ev [] = { gate := st.gate, trace := st.trace ++ [ev] } := rfl

/-- The strategy loop on the state, when no configured strategy writes on
this request: the receiver is left as it was, and the result and the effects
are those of `authLoop` on the strategies' answers. -/
theorem authLoopS_quiet (req : Request) (g : Receiver)
    (hq : ∀ s ∈ g.supportedAuth, s.writes req = [])
    (rest done : List Strategy) (hg : g.supportedAuth = done ++ rest)
    (success : Bool) (tr : List Event) :
    authLoopS req rest.length done.length success { gate := g, trace := tr } =
      ((authLoop req (rest.map Strategy.authorize) done.length success tr).1,
       { gate := g,
         trace := (authLoop req (rest.map Strategy.authorize) done.length success tr).2 }) := by
  induction rest generalizing done success tr with
  | nil => simp [authLoopS, authLoop]
  | cons s rest ih =>
    have hget : g.supportedAuth[done.length]? = some s := by
      rw [hg, List.getElem?_append_right (Nat.le_refl _)]
      simp
    have hw : s.writes req = [] := hq s (by rw [hg]; simp)
    have hg' : g.supportedAuth = (done ++ [s]) ++ rest := by
      rw [hg, List.append_assoc, List.singleton_append]
    have ih' := ih (done ++ [s]) hg'
    rw [List.length_append, List.length_singleton] at ih'
    simp only [List.length_cons, List.map_cons]
    unfold authLoopS authLoop
    simp only [hget, hw, call_nil]
    cases success with
    | true => simp
    | false =>
      cases h : s.authorize req with
      | true => simp
      | false => simp [ih']

/-- The call on the state, when neither a configured strategy nor another
collaborator writes on this request: the receiver is left as it was and the
effects are the trace of `Filter.Filter` on the strategies' answers. -/
theorem FilterExec_quiet (env : Collaborators) (af : Receiver) (req : Request)
    (hauth : ∀ s ∈ af.supportedAuth, s.writes req = [])
    (hchain : env.processFilter req = [])
    (hlog : env.logDebug = [])
    (hres : env.writeErrorString = []) :
    FilterExec env af req =
      { gate := af,
        trace := (NewAuthFilter (af.supportedAuth.map Strategy.authorize)
          af.exceptions).Filter req } := by
  have hloop := authLoopS_quiet req af hauth af.supportedAuth [] rfl false
  simp only [List.length_nil] at hloop
  unfold FilterExec Filter.Filter NewAuthFilter
  simp only [hchain, hlog, hres, call_nil, List.length_map, List.nil_append]
  by_cases hl : af.supportedAuth.length = 0
  · have hnil : af.supportedAuth = [] := List.length_eq_zero.1 hl
    cases hx : exceptionBlock af.exceptions req.requestURI <;>
      simp [hnil, hx, authLoopS, authLoop]
  · simp only [hl, if_false, hloop]
    cases hx : exceptionBlock af.exceptions req.requestURI with
    | true => simp
    | false =>
      cases hs : (authLoop req (af.supportedAuth.map Strategy.authorize) 0 false []).1 <;>
        simp [hs]

/-- The effects of `FilterRun` are the trace of `Filter.Filter`. -/
theorem FilterRun_trace (g : Filter) (req : Request) :
    (FilterRun g req).trace = g.Filter req := by
  have hq : ∀ s ∈ (Receiver.ofFilter g).supportedAuth, s.writes req = [] := by
    intro s hs
    rcases List.mem_map.1 hs with ⟨a, _, rfl⟩
    rfl
  have hmap : (Receiver.ofFilter g).supportedAuth.map Strategy.authorize = g.supportedAuth := by
    simp only [Receiver.ofFilter, List.map_map]
    exact List.map_id _
  unfold FilterRun
  rw [FilterExec_quiet Collaborators.quiet (Receiver.ofFilter g) req hq rfl rfl rfl]
  simp only [hmap]
  rfl

/-- C13 (as stated it fails): a strategy that overwrites the first exemption
through the caller's slice and answers false, followed by an accepting
strategy, exemption `/public`, request `/private`: when `Filter` returns, the
gate's exemption list is `/mutated`, not what it was before the call. -/
theorem FilterExec_gateRewriting_exceptions :
    (FilterExec Collaborators.quiet gateRewriting (requestFor "/private")).gate.exceptions =
        some [str "/mutated"] ∧
      gateRewriting.exceptions = some [str "/public"] ∧
      (FilterExec Collaborators.quiet gateRewriting (requestFor "/private")).gate.exceptions ≠
        gateRewriting.exceptions ∧
      (FilterExec Collaborators.quiet gateRewriting (requestFor "/private")).trace =
        [Event.authorize 0, Event.authorize 1, Event.processFilter] := by
  decide

/-- C13 (amended): if on this request no configured strategy, and neither the
continuation, the logger nor the response writer, writes to the slices handed
to `NewAuthFilter`, then when `Filter` returns the gate's strategy list and
exemption list are what they were before the call, on every path: `Filter`
itself never assigns to them.  The effects are then the trace of
`Filter.Filter` on the strategies' answers. -/
theorem FilterExec_frame (env : Collaborators) (af : Receiver) (req : Request)
    (hauth : ∀ s ∈ af.supportedAuth, s.writes req = [])
    (hchain : env.processFilter req = [])
    (hlog : env.logDebug = [])
    (hres : env.writeErrorString = []) :
    (FilterExec env af req).gate.supportedAuth = af.supportedAuth ∧
      (FilterExec env af req).gate.exceptions = af.exceptions ∧
      (FilterExec env af req).trace =
        (NewAuthFilter (af.supportedAuth.map Strategy.authorize) af.exceptions).Filter req := by
  rw [FilterExec_quiet env af req hauth hchain hlog hres]
  exact ⟨rfl, rfl, rfl⟩

/-- Witness for C13 (amended): strategies answering false, true with
exemptions `/a`, `/b`, none of which writes, on request `/x` (ALLOW by
strategy). -/
theorem FilterExec_frame_witness :
    ((∀ s ∈ (Receiver.ofFilter gateFT).supportedAuth, s.writes (requestFor "/x") = []) ∧
      Collaborators.quiet.processFilter (requestFor "/x") = [] ∧
      Collaborators.quiet.logDebug = [] ∧
      Collaborators.quiet.writeErrorString = []) ∧
    ((FilterExec Collaborators.quiet (Receiver.ofFilter gateFT) (requestFor "/x")).gate.supportedAuth =
        (Receiver.ofFilter gateFT).supportedAuth ∧
      (FilterExec Collaborators.quiet (Receiver.ofFilter gateFT) (requestFor "/x")).gate.exceptions =
        (Receiver.ofFilter gateFT).exceptions ∧
      (FilterExec Collaborators.quiet (Receiver.ofFilter gateFT) (requestFor "/x")).trace =
        (NewAuthFilter ((Receiver.ofFilter gateFT).supportedAuth.map Strategy.authorize)
          (Receiver.ofFilter gateFT).exceptions).Filter (requestFor "/x")) :=
  have hauth : ∀ s ∈ (Receiver.ofFilter gateFT).supportedAuth,
      s.writes (requestFor "/x") = [] := by
    intro s hs
    rcases List.mem_map.1 hs with ⟨a, _, rfl⟩
    rfl
  ⟨⟨hauth, rfl, rfl, rfl⟩,
    FilterExec_frame Collaborators.quiet (Receiver.ofFilter gateFT) (requestFor "/x")
      hauth rfl rfl rfl⟩

/-! ## The no-strategies fallthrough, and the exemption list -/

/-- C14 (the code departs from it): with no strategy configured, the code as
written does what the early-return variant does and then goes on: it invokes
the continuation a second time when an exemption matches, and logs and writes
the 401 rejection when none does.  With a `nil` exemption list and request
URI `/health` the code yields continuation, log line, 401; the variant yields
the continuation alone. -/
theorem Filter_fallthrough_effects :
    (∀ (exceptions : Option (List GoString)) (req : Request),
      (NewAuthFilter [] exceptions).Filter req =
        FilterEarlyReturn (NewAuthFilter [] exceptions) req ++
          (if exceptionBlock exceptions req.requestURI = true then [Event.processFilter]
           else [Event.logDebug (str "Unauthorized request rejected"),
                 Event.writeErrorString 401 (str "401: Unauthorized")])) ∧
    gateEmpty.Filter (requestFor "/health") =
      [Event.processFilter,
       Event.logDebug (str "Unauthorized request rejected"),
       Event.writeErrorString 401 (str "401: Unauthorized")] ∧
    FilterEarlyReturn gateEmpty (requestFor "/health") = [Event.processFilter] := by
  refine ⟨fun exceptions req => ?_, by decide, by decide⟩
  rw [Filter_trace_eq]
  cases hx : exceptionBlock exceptions req.requestURI <;>
    simp [FilterEarlyReturn, NewAuthFilter, hx]

/-- C15: a gate with a `nil` exemption list and a gate with an empty one
yield the same trace for every strategy list and every request; in both the
exemption block does not return, so the call goes on to the strategies. -/
theorem Filter_nil_exceptions_eq_empty (supportedAuth : List Auth) (req : Request) :
    (NewAuthFilter supportedAuth none).Filter req =
        (NewAuthFilter supportedAuth (some [])).Filter req ∧
      exceptionBlock (NewAuthFilter supportedAuth none).exceptions req.requestURI = false ∧
      exceptionBlock (NewAuthFilter supportedAuth (some [])).exceptions req.requestURI = false ∧
      (FilterRun (NewAuthFilter supportedAuth none) req).trace =
        (FilterRun (NewAuthFilter supportedAuth (some [])) req).trace := by
  have h1 : exceptionBlock (NewAuthFilter supportedAuth none).exceptions req.requestURI =
      false := rfl
  have h2 : exceptionBlock (NewAuthFilter supportedAuth (some [])).exceptions req.requestURI =
      false := rfl
  have htr : (NewAuthFilter supportedAuth none).Filter req =
      (NewAuthFilter supportedAuth (some [])).Filter req := by
    rw [Filter_trace_eq, Filter_trace_eq (NewAuthFilter supportedAuth (some [])), h1, h2]
    rfl
  have hrun : ∀ g : Filter, (FilterRun g req).trace = g.Filter req :=
    fun g => FilterRun_trace g req
  exact ⟨htr, h1, h2, by rw [hrun, hrun, htr]⟩

/-- C16: when the exemption list contains the empty string, every request is
exempt whatever the strategy list: no strategy is called, no rejection is
written and the continuation is invoked. -/
theorem Filter_blank_exemption (af : Filter) (req : Request) (es : List GoString)
    (hes : af.exceptions = some es) (hblank : str "" ∈ es) :
    (∀ i, Event.authorize i ∉ af.Filter req) ∧
      (∀ status body, Event.writeErrorString status body ∉ af.Filter req) ∧
      Event.processFilter ∈ af.Filter req := by
  have hpre : str "" <+: req.requestURI := List.nil_prefix
  have hx : exceptionBlock af.exceptions req.requestURI = true :=
    (exceptionBlock_iff _ _).2 ⟨es, hes, str "", hblank, hpre⟩
  rw [Filter_exempt_eq af req hx]
  refine ⟨fun i => ?_, fun status body => ?_, ?_⟩
  · by_cases hl : af.supportedAuth.length = 0 <;> simp [hl]
  · by_cases hl : af.supportedAuth.length = 0 <;> simp [hl]
  · simp

/-- Witness for C16: exemptions `/public` and the empty string, an
always-rejecting strategy, request `/admin/secret`. -/
theorem Filter_blank_exemption_witness :
    (gateDenyBlank.exceptions = some [str "/public", str ""] ∧
      str "" ∈ [str "/public", str ""]) ∧
    ((∀ i, Event.authorize i ∉ gateDenyBlank.Filter (requestFor "/admin/secret")) ∧
      (∀ status body, Event.writeErrorString status body ∉
        gateDenyBlank.Filter (requestFor "/admin/secret")) ∧
      Event.processFilter ∈ gateDenyBlank.Filter (requestFor "/admin/secret")) ∧
    gateDenyBlank.Filter (requestFor "/admin/secret") = [Event.processFilter] :=
  have hes : gateDenyBlank.exceptions = some [str "/public", str ""] := rfl
  have hblank : str "" ∈ [str "/public", str ""] :=
    List.mem_cons_of_mem _ (List.mem_cons_self _ _)
  ⟨⟨hes, hblank⟩,
    Filter_blank_exemption gateDenyBlank (requestFor "/admin/secret") _ hes hblank,
    by decide⟩

/-! ## Monotonicity and order independence -/

/-- The 401 rejection is written exactly when the exemption block did not
return and the strategy loop ended without success. -/
theorem Filter_mem_write_iff (af : Filter) (req : Request) :
    Event.writeErrorString 401 (str "401: Unauthorized") ∈ af.Filter req ↔
      exceptionBlock af.exceptions req.requestURI = false ∧
        af.supportedAuth.any (fun a => a req) = false := by
  have hmem : ∀ n : Nat, Event.writeErrorString 401 (str "401: Unauthorized") ∉
      (List.range n).map Event.authorize := by
    intro n hin
    rcases List.mem_map.1 hin with ⟨i, _, hi⟩
    exact Event.noConfusion hi
  rw [Filter_trace_eq]
  by_cases hl : af.supportedAuth.length = 0 <;>
    cases hx : exceptionBlock af.exceptions req.requestURI <;>
    cases hany : af.supportedAuth.any (fun a => a req) <;>
    simp [hl, hmem]

/-- The continuation is invoked exactly when no strategy is configured, or
the exemption block returned, or the strategy loop ended with success. -/
theorem Filter_mem_processFilter_iff (af : Filter) (req : Request) :
    Event.processFilter ∈ af.Filter req ↔
      af.supportedAuth.length = 0 ∨
        exceptionBlock af.exceptions req.requestURI = true ∨
        af.supportedAuth.any (fun a => a req) = true := by
  have hmem : ∀ n : Nat, Event.processFilter ∉ (List.range n).map Event.authorize := by
    intro n hin
    rcases List.mem_map.1 hin with ⟨i, _, hi⟩
    exact Event.noConfusion hi
  rw [Filter_trace_eq]
  by_cases hl : af.supportedAuth.length = 0 <;>
    cases hx : exceptionBlock af.exceptions req.requestURI <;>
    cases hany : af.supportedAuth.any (fun a => a req) <;>
    simp [hl, hmem]

/-- C17: if `Filter` writes no 401 rejection under a gate, it writes none
under a gate whose strategy list is the first one's with further strategies
appended and whose exemption list holds every exemption of the first. -/
theorem Filter_rejection_monotone (af af' : Filter) (req : Request) (extra : List Auth)
    (hS : af'.supportedAuth = af.supportedAuth ++ extra)
    (hE : ∀ es e, af.exceptions = some es → e ∈ es →
      ∃ es', af'.exceptions = some es' ∧ e ∈ es')
    (h : Event.writeErrorString 401 (str "401: Unauthorized") ∉ af.Filter req) :
    Event.writeErrorString 401 (str "401: Unauthorized") ∉ af'.Filter req := by
  rw [Filter_mem_write_iff] at h ⊢
  rintro ⟨hx', hany'⟩
  apply h
  constructor
  · cases hx : exceptionBlock af.exceptions req.requestURI with
    | false => rfl
    | true =>
      obtain ⟨es, hes, e, he, hpre⟩ := (exceptionBlock_iff _ _).1 hx
      obtain ⟨es', hes', he'⟩ := hE es e hes he
      have : exceptionBlock af'.exceptions req.requestURI = true :=
        (exceptionBlock_iff _ _).2 ⟨es', hes', e, he', hpre⟩
      rw [hx'] at this
      exact absurd this Bool.false_ne_true
  · rw [hS, List.any_append, Bool.or_eq_false_iff] at hany'
    exact hany'.1

/-- Witness for C17: from one rejecting strategy with exemption `/public` to
that gate with an accepting strategy appended and exemption `/static` added,
on request `/public/logo.png`. -/
theorem Filter_rejection_monotone_witness :
    (gateDenyAllowStatic.supportedAuth = gateDenyPublic.supportedAuth ++ [allowAll] ∧
      (∀ es e, gateDenyPublic.exceptions = some es → e ∈ es →
        ∃ es', gateDenyAllowStatic.exceptions = some es' ∧ e ∈ es') ∧
      Event.writeErrorString 401 (str "401: Unauthorized") ∉
        gateDenyPublic.Filter (requestFor "/public/logo.png")) ∧
    Event.writeErrorString 401 (str "401: Unauthorized") ∉
      gateDenyAllowStatic.Filter (requestFor "/public/logo.png") :=
  have hS : gateDenyAllowStatic.supportedAuth = gateDenyPublic.supportedAuth ++ [allowAll] := rfl
  have hE : ∀ es e, gateDenyPublic.exceptions = some es → e ∈ es →
      ∃ es', gateDenyAllowStatic.exceptions = some es' ∧ e ∈ es' := by
    intro es e hes he
    cases hes
    exact ⟨_, rfl, List.mem_cons_of_mem _ he⟩
  have h : Event.writeErrorString 401 (str "401: Unauthorized") ∉
      gateDenyPublic.Filter (requestFor "/public/logo.png") := by decide
  ⟨⟨hS, hE, h⟩,
    Filter_rejection_monotone gateDenyPublic gateDenyAllowStatic
      (requestFor "/public/logo.png") [allowAll] hS hE h⟩

/-- Whether the exemption block returns depends on the exemptions as a set. -/
theorem exceptionBlock_perm (es es' : List GoString) (uri : GoString) (h : es.Perm es') :
    exceptionBlock (some es) uri = exceptionBlock (some es') uri := by
  rw [Bool.eq_iff_iff, exceptionBlock_iff, exceptionBlock_iff]
  constructor
  · rintro ⟨l, hl, e, he, hpre⟩
    cases hl
    exact ⟨es', rfl, e, h.mem_iff.1 he, hpre⟩
  · rintro ⟨l, hl, e, he, hpre⟩
    cases hl
    exact ⟨es, rfl, e, h.mem_iff.2 he, hpre⟩

/-- Whether some strategy accepts depends on the strategies as a set. -/
theorem any_perm (auths auths' : List Auth) (req : Request) (h : auths.Perm auths') :
    auths.any (fun a => a req) = auths'.any (fun a => a req) := by
  rw [Bool.eq_iff_iff, List.any_eq_true, List.any_eq_true]
  constructor
  · rintro ⟨a, ha, hv⟩
    exact ⟨a, h.mem_iff.1 ha, hv⟩
  · rintro ⟨a, ha, hv⟩
    exact ⟨a, h.mem_iff.2 ha, hv⟩

/-- C18: with strategies that are functions of the request, permuting the
strategy list and the exemption list changes neither whether `Filter` writes
the 401 rejection nor whether it invokes the continuation; the events of the
call other than the strategy calls are the same, in the same order. -/
theorem Filter_perm_invariant (af af' : Filter) (req : Request)
    (hS : af.supportedAuth.Perm af'.supportedAuth)
    (hE : (af.exceptions = none ∧ af'.exceptions = none) ∨
      ∃ es es', af.exceptions = some es ∧ af'.exceptions = some es' ∧ es.Perm es') :
    (Event.writeErrorString 401 (str "401: Unauthorized") ∈ af.Filter req ↔
        Event.writeErrorString 401 (str "401: Unauthorized") ∈ af'.Filter req) ∧
      (Event.processFilter ∈ af.Filter req ↔ Event.processFilter ∈ af'.Filter req) ∧
      (af.Filter req).filter (fun ev => !ev.isAuthorize) =
        (af'.Filter req).filter (fun ev => !ev.isAuthorize) := by
  have hlen : af.supportedAuth.length = af'.supportedAuth.length := hS.length_eq
  have hany := any_perm af.supportedAuth af'.supportedAuth req hS
  have hx : exceptionBlock af.exceptions req.requestURI =
      exceptionBlock af'.exceptions req.requestURI := by
    rcases hE with ⟨h1, h2⟩ | ⟨es, es', h1, h2, hp⟩
    · rw [h1, h2]
    · rw [h1, h2]
      exact exceptionBlock_perm es es' _ hp
  refine ⟨?_, ?_, ?_⟩
  · rw [Filter_mem_write_iff, Filter_mem_write_iff, hx, hany]
  · rw [Filter_mem_processFilter_iff, Filter_mem_processFilter_iff, hx, hany, hlen]
  · rw [Filter_effects_eq, Filter_effects_eq, hx, hany, hlen]

/-- Witness for C18: strategies false, true with exemptions `/a`, `/b`,
against the same gate with both lists reversed, on request `/x`: the outcome
is the same, and only the strategy calls differ (two against one). -/
theorem Filter_perm_invariant_witness :
    (gateFT.supportedAuth.Perm gateTF.supportedAuth ∧
      ((gateFT.exceptions = none ∧ gateTF.exceptions = none) ∨
        ∃ es es', gateFT.exceptions = some es ∧ gateTF.exceptions = some es' ∧ es.Perm es')) ∧
    ((Event.writeErrorString 401 (str "401: Unauthorized") ∈ gateFT.Filter (requestFor "/x") ↔
        Event.writeErrorString 401 (str "401: Unauthorized") ∈ gateTF.Filter (requestFor "/x")) ∧
      (Event.processFilter ∈ gateFT.Filter (requestFor "/x") ↔
        Event.processFilter ∈ gateTF.Filter (requestFor "/x")) ∧
      (gateFT.Filter (requestFor "/x")).filter (fun ev => !ev.isAuthorize) =
        (gateTF.Filter (requestFor "/x")).filter (fun ev => !ev.isAuthorize)) ∧
    gateFT.Filter (requestFor "/x") =
      [Event.authorize 0, Event.authorize 1, Event.processFilter] ∧
    gateTF.Filter (requestFor "/x") = [Event.authorize 0, Event.processFilter] :=
  have hS : gateFT.supportedAuth.Perm gateTF.supportedAuth := List.Perm.swap allowAll denyAll []
  have hE : (gateFT.exceptions = none ∧ gateTF.exceptions = none) ∨
      ∃ es es', gateFT.exceptions = some es ∧ gateTF.exceptions = some es' ∧ es.Perm es' :=
    Or.inr ⟨_, _, rfl, rfl, List.Perm.swap (str "/b") (str "/a") []⟩
  ⟨⟨hS, hE⟩, Filter_perm_invariant gateFT gateTF (requestFor "/x") hS hE,
    by decide, by decide⟩

end auth
